import Mathlib

/-!
Verification of the nonogram generator core (`src/App.tsx`).

The embedded code consists of:
* the clue deriver `calculateNumbers` (App.tsx lines 25–68), embedded with
  explicit `Option` to model JavaScript `TypeError`s on out-of-bounds
  element access (`grid[0].length` on an empty grid, `row[colIndex].filled`
  on a short row);
* the quantization loop of `generateNonogram` (App.tsx lines 104–116),
  embedded over an arbitrary pixel buffer `data : Nat → Nat` standing for
  the `imageData.data` array the browser canvas produces;
* the dimension-setting paths: the columns/rows input onChange handlers
  (App.tsx lines 211–216 and 229–234) and the initial-rows computation of
  `handleImageUpload` (App.tsx lines 130–134).
-/

/-- `NonogramCell` (App.tsx lines 6–9): a grid cell with its derived
`filled` flag and the sampled color string. -/
structure NonogramCell where
  filled : Bool
  color : String
deriving DecidableEq, Repr

/-- The `row.forEach((cell, index) => ...)` loop of the row-clue scan
(App.tsx lines 31–41): `len` is `row.length`, `index` the current index,
`numbers` the output array so far, `currentCount` the running run length.
On a filled cell the count is incremented and, at the last index, pushed
inline; on an unfilled cell a positive count is pushed and reset. -/
def rowNumsGo (len index : Nat) (numbers : List Nat) (currentCount : Nat) :
    List NonogramCell → List Nat
  | [] => numbers
  | cell :: rest =>
    if cell.filled then
      if index = len - 1 then
        rowNumsGo len (index + 1) (numbers ++ [currentCount + 1]) (currentCount + 1) rest
      else
        rowNumsGo len (index + 1) numbers (currentCount + 1) rest
    else if currentCount > 0 then
      rowNumsGo len (index + 1) (numbers ++ [currentCount]) 0 rest
    else
      rowNumsGo len (index + 1) numbers currentCount rest

/-- Row-clue computation for one row (App.tsx lines 27–44), including the
`numbers.length ? numbers : [0]` convention for an all-unfilled row. -/
def rowNums (row : List NonogramCell) : List Nat :=
  let numbers := rowNumsGo row.length 0 [] 0 row
  if numbers.isEmpty then [0] else numbers

/-- The `grid.forEach((row, rowIndex) => ...)` loop of the column-clue scan
(App.tsx lines 51–61). The access `row[colIndex].filled` is modelled with
`row.get? colIndex`: `none` stands for the `TypeError` JavaScript throws
when `row[colIndex]` is `undefined`. -/
def colNumsGo (len colIndex rowIndex : Nat) (numbers : List Nat) (currentCount : Nat) :
    List (List NonogramCell) → Option (List Nat)
  | [] => some numbers
  | row :: rest =>
    match row.get? colIndex with
    | none => none
    | some cell =>
      if cell.filled then
        if rowIndex = len - 1 then
          colNumsGo len colIndex (rowIndex + 1) (numbers ++ [currentCount + 1]) (currentCount + 1) rest
        else
          colNumsGo len colIndex (rowIndex + 1) numbers (currentCount + 1) rest
      else if currentCount > 0 then
        colNumsGo len colIndex (rowIndex + 1) (numbers ++ [currentCount]) 0 rest
      else
        colNumsGo len colIndex (rowIndex + 1) numbers currentCount rest

/-- Column-clue computation for one column index (App.tsx lines 47–63),
including the `numbers.length ? numbers : [0]` convention. -/
def colNumsAt (grid : List (List NonogramCell)) (colIndex : Nat) : Option (List Nat) :=
  (colNumsGo grid.length colIndex 0 [] 0 grid).map
    (fun numbers => if numbers.isEmpty then [0] else numbers)

/-- The `Array(grid[0].length).fill(0).map((_, colIndex) => ...)` driver
(App.tsx line 47) over a given list of column indices: a `TypeError` in any
column scan aborts the whole computation. -/
def calcCols (grid : List (List NonogramCell)) : List Nat → Option (List (List Nat))
  | [] => some []
  | c :: cs =>
    match colNumsAt grid c, calcCols grid cs with
    | some ns, some rest => some (ns :: rest)
    | _, _ => none

/-- `calculateNumbers` (App.tsx lines 25–68): the pair of row clues and
column clues. `none` models the `TypeError` thrown when `grid[0]` is
`undefined` (empty grid) or when a column scan indexes past a row. -/
def calculateNumbers (grid : List (List NonogramCell)) :
    Option (List (List Nat) × List (List Nat)) :=
  match grid.head? with
  | none => none
  | some row0 =>
    (calcCols grid (List.range row0.length)).map
      (fun colNums => (grid.map rowNums, colNums))

/-- The cells of column `c`, read top to bottom (rows lacking an index `c`
contribute nothing; on a rectangular grid with `c` in range this is exactly
the `c`-th column). -/
def columnOf (grid : List (List NonogramCell)) (c : Nat) : List NonogramCell :=
  grid.filterMap (fun row => row.get? c)

/-- The transpose of a grid: the list of its columns, left to right, each
read top to bottom. -/
def transposeGrid (grid : List (List NonogramCell)) : List (List NonogramCell) :=
  (List.range (grid.head?.getD []).length).map (columnOf grid)

/-- A grid is rectangular when every row has the length of the first row. -/
def rectangular (grid : List (List NonogramCell)) : Prop :=
  ∀ row ∈ grid, row.length = (grid.head?.getD []).length

instance : DecidablePred rectangular := fun grid =>
  List.decidableBAll _ grid

/-- Brightness of the pixel starting at buffer offset `i`
(App.tsx line 109): the unweighted average of the three channels, taken in
`ℚ` to mirror JavaScript's exact non-integer division. -/
def brightnessAt (data : Nat → Nat) (i : Nat) : ℚ :=
  ((data i : ℚ) + (data (i + 1) : ℚ) + (data (i + 2) : ℚ)) / 3

/-- One grid cell of the quantizer (App.tsx lines 109–113): filled iff the
brightness is strictly below 128, color the sampled RGB triple. -/
def sampleCell (data : Nat → Nat) (i : Nat) : NonogramCell :=
  { filled := decide (brightnessAt data i < 128),
    color := "rgb(" ++ toString (data i) ++ ", " ++ toString (data (i + 1)) ++ ", "
      ++ toString (data (i + 2)) ++ ")" }

/-- The grid-assembly loop of `generateNonogram` (App.tsx lines 104–116):
for `y` in `[0, rows)` and `x` in `[0, columns)` the cell is sampled at
buffer offset `(y * columns + x) * 4`. `data` is the pixel buffer the
canvas `getImageData` call returns after the fit-and-center drawing
(browser-side, not repository code). -/
def quantizeGrid (data : Nat → Nat) (columns rows : Nat) : List (List NonogramCell) :=
  (List.range rows).map (fun y =>
    (List.range columns).map (fun x => sampleCell data ((y * columns + x) * 4)))

/-- The onChange handler shared in shape by the Columns and Rows number
inputs (App.tsx lines 211–216 and 229–234): a non-numeric or non-positive
parse leaves the state unchanged, otherwise the value is clamped to
`[5, 50]`. `none` models `NaN`. -/
def onChangeDimension (current : Int) (value : Option Int) : Int :=
  match value with
  | none => current
  | some v => if v > 0 then max 5 (min 50 v) else current

/-- The initial-rows computation of `handleImageUpload` (App.tsx
lines 130–134): on the first upload, `rows` is set to
`Math.round(columns * (img.height / img.width))`, with no clamping.
`round` on `ℚ` is `⌊x + 1/2⌋`, matching `Math.round`. -/
def uploadInitialRows (columns width height : Nat) : Int :=
  round ((columns : ℚ) * ((height : ℚ) / (width : ℚ)))

/-! ### Reference run-length functions -/

/-- The maximal runs of `true` in a list of booleans, scanned left to
right: each run is counted by its full length, found with
`takeWhile`/`dropWhile`. -/
def maximalRuns : List Bool → List Nat
  | [] => []
  | false :: rest => maximalRuns rest
  | true :: rest =>
    ((rest.takeWhile id).length + 1) :: maximalRuns (rest.dropWhile id)
termination_by l => l.length
decreasing_by
  · simp only [List.length_cons]
    omega
  · simp only [List.length_cons]
    exact Nat.lt_succ_of_le (List.dropWhile_sublist id).length_le

/-- Run-length scan with an open run of length `cnt`, flushing the open
run at the end of the list. -/
def runsGo (cnt : Nat) : List Bool → List Nat
  | [] => if cnt > 0 then [cnt] else []
  | b :: rest =>
    if b then runsGo (cnt + 1) rest
    else if cnt > 0 then cnt :: runsGo 0 rest
    else runsGo 0 rest

/-- Run-length scan with an open run of length `cnt`, flushing inline at
the last element (as the source loop does) rather than after the scan. -/
def runsNF (cnt : Nat) : List Bool → List Nat
  | [] => []
  | b :: rest =>
    if b then
      if rest = [] then [cnt + 1] else runsNF (cnt + 1) rest
    else if cnt > 0 then cnt :: runsNF 0 rest
    else runsNF 0 rest

/-! ### Lemmas about the reference run-length functions -/

theorem runsNF_eq_runsGo :
    ∀ (bs : List Bool) (cnt : Nat), (bs = [] → cnt = 0) → runsNF cnt bs = runsGo cnt bs := by
  intro bs
  induction bs with
  | nil =>
    intro cnt h
    simp [runsNF, runsGo, h rfl]
  | cons b rest ih =>
    intro cnt _
    cases b with
    | true =>
      cases rest with
      | nil => simp [runsNF, runsGo]
      | cons r rs =>
        simp only [runsNF, runsGo, if_pos rfl, if_true]
        exact ih (cnt + 1) (by simp)
    | false =>
      cases Nat.eq_zero_or_pos cnt with
      | inl h0 =>
        subst h0
        have ha : runsNF 0 (false :: rest) = runsNF 0 rest := by simp [runsNF]
        have hb : runsGo 0 (false :: rest) = runsGo 0 rest := by simp [runsGo]
        rw [ha, hb, ih 0 (fun _ => rfl)]
      | inr hpos =>
        have ha : runsNF cnt (false :: rest) = cnt :: runsNF 0 rest := by
          simp [runsNF, hpos]
        have hb : runsGo cnt (false :: rest) = cnt :: runsGo 0 rest := by
          simp [runsGo, hpos]
        rw [ha, hb, ih 0 (fun _ => rfl)]

theorem runsGo_eq_maximalRuns :
    ∀ (bs : List Bool) (cnt : Nat),
      runsGo cnt bs =
        if cnt = 0 then maximalRuns bs
        else (cnt + (bs.takeWhile id).length) :: maximalRuns (bs.dropWhile id) := by
  intro bs
  induction bs with
  | nil =>
    intro cnt
    cases Nat.eq_zero_or_pos cnt with
    | inl h0 => subst h0; simp [runsGo, maximalRuns]
    | inr hpos =>
      simp [runsGo, maximalRuns, hpos, Nat.pos_iff_ne_zero.mp hpos]
  | cons b rest ih =>
    intro cnt
    cases b with
    | true =>
      have h1 : runsGo cnt (true :: rest) = runsGo (cnt + 1) rest := by simp [runsGo]
      rw [h1, ih (cnt + 1)]
      simp only [Nat.succ_ne_zero, if_neg, Nat.add_eq_zero, and_false]
      cases Nat.eq_zero_or_pos cnt with
      | inl h0 =>
        subst h0
        simp [maximalRuns, List.takeWhile_cons_of_pos, List.dropWhile_cons_of_pos,
          Nat.add_comm]
      | inr hpos =>
        have : cnt ≠ 0 := Nat.pos_iff_ne_zero.mp hpos
        simp [this, List.takeWhile_cons_of_pos, List.dropWhile_cons_of_pos]
        omega
    | false =>
      cases Nat.eq_zero_or_pos cnt with
      | inl h0 =>
        subst h0
        have h1 : runsGo 0 (false :: rest) = runsGo 0 rest := by simp [runsGo]
        rw [h1, ih 0]
        simp [maximalRuns]
      | inr hpos =>
        have hne : cnt ≠ 0 := Nat.pos_iff_ne_zero.mp hpos
        have h1 : runsGo cnt (false :: rest) = cnt :: runsGo 0 rest := by
          simp [runsGo, hpos]
        rw [h1, ih 0]
        simp only [if_pos rfl, if_neg hne]
        simp [maximalRuns, List.takeWhile_cons_of_neg, List.dropWhile_cons_of_neg]

theorem runsGo_sum :
    ∀ (bs : List Bool) (cnt : Nat), (runsGo cnt bs).sum = cnt + bs.count true := by
  intro bs
  induction bs with
  | nil =>
    intro cnt
    cases Nat.eq_zero_or_pos cnt with
    | inl h0 => subst h0; simp [runsGo]
    | inr hpos => simp [runsGo, hpos]
  | cons b rest ih =>
    intro cnt
    cases b with
    | true => simp [runsGo, ih, List.count_cons]; omega
    | false =>
      cases Nat.eq_zero_or_pos cnt with
      | inl h0 => subst h0; simp [runsGo, ih, List.count_cons]
      | inr hpos => simp [runsGo, hpos, ih, List.count_cons]

theorem runsGo_pos :
    ∀ (bs : List Bool) (cnt : Nat), ∀ x ∈ runsGo cnt bs, 0 < x := by
  intro bs
  induction bs with
  | nil =>
    intro cnt x hx
    by_cases h : cnt > 0
    · simp [runsGo, h] at hx; omega
    · simp [runsGo, h] at hx
  | cons b rest ih =>
    intro cnt x hx
    cases b with
    | true => exact ih (cnt + 1) x (by simpa [runsGo] using hx)
    | false =>
      by_cases h : cnt > 0
      · have hb : runsGo cnt (false :: rest) = cnt :: runsGo 0 rest := by
          simp [runsGo, h]
        rw [hb] at hx
        rcases List.mem_cons.mp hx with h1 | h2
        · omega
        · exact ih 0 x h2
      · exact ih 0 x (by simpa [runsGo, h] using hx)

theorem runsGo_fit :
    ∀ (bs : List Bool) (cnt : Nat),
      (runsGo cnt bs).sum + (runsGo cnt bs).length ≤ cnt + bs.length + 1 := by
  intro bs
  induction bs with
  | nil =>
    intro cnt
    by_cases h : cnt > 0 <;> simp [runsGo, h]
  | cons b rest ih =>
    intro cnt
    cases b with
    | true =>
      have h1 : runsGo cnt (true :: rest) = runsGo (cnt + 1) rest := by simp [runsGo]
      rw [h1]
      have := ih (cnt + 1)
      simp only [List.length_cons]
      omega
    | false =>
      cases Nat.eq_zero_or_pos cnt with
      | inl h0 =>
        subst h0
        have h1 : runsGo 0 (false :: rest) = runsGo 0 rest := by simp [runsGo]
        rw [h1]
        have := ih 0
        simp only [List.length_cons]
        omega
      | inr hpos =>
        have h1 : runsGo cnt (false :: rest) = cnt :: runsGo 0 rest := by
          simp [runsGo, hpos]
        rw [h1]
        have := ih 0
        simp only [List.sum_cons, List.length_cons]
        omega

theorem runsGo_eq_nil_iff (bs : List Bool) : runsGo 0 bs = [] ↔ bs.count true = 0 := by
  constructor
  · intro h
    have := runsGo_sum bs 0
    rw [h] at this
    simpa using this.symm
  · intro h
    cases hr : runsGo 0 bs with
    | nil => rfl
    | cons x xs =>
      have hx : 0 < x := runsGo_pos bs 0 x (by rw [hr]; exact List.mem_cons_self x xs)
      have hsum := runsGo_sum bs 0
      rw [hr, h] at hsum
      simp only [List.sum_cons, Nat.zero_add] at hsum
      omega

/-! ### Characterization of the row scan -/

theorem rowNumsGo_eq :
    ∀ (row : List NonogramCell) (len index : Nat) (numbers : List Nat) (cnt : Nat),
      index + row.length = len →
      rowNumsGo len index numbers cnt row =
        numbers ++ runsNF cnt (row.map (fun cell => cell.filled)) := by
  intro row
  induction row with
  | nil =>
    intro len index numbers cnt _
    simp [rowNumsGo, runsNF]
  | cons cell rest ih =>
    intro len index numbers cnt hlen
    simp only [List.length_cons] at hlen
    by_cases hf : cell.filled
    · by_cases hr : rest = []
      · subst hr
        simp only [List.length_nil] at hlen
        have hidx : index = len - 1 := by omega
        have ha : rowNumsGo len index numbers cnt [cell] =
            numbers ++ [cnt + 1] := by
          simp [rowNumsGo, hf, hidx]
        rw [ha]
        simp [runsNF, hf]
      · have hidx : index ≠ len - 1 := by
          have : rest.length ≠ 0 := fun h => hr (List.length_eq_zero.mp h)
          omega
        have ha : rowNumsGo len index numbers cnt (cell :: rest) =
            rowNumsGo len (index + 1) numbers (cnt + 1) rest := by
          simp [rowNumsGo, hf, hidx]
        rw [ha, ih len (index + 1) numbers (cnt + 1) (by omega)]
        have hb : runsNF cnt ((cell :: rest).map (fun cell => cell.filled)) =
            runsNF (cnt + 1) (rest.map (fun cell => cell.filled)) := by
          simp [runsNF, hf, hr]
        rw [hb]
    · by_cases hc : cnt > 0
      · have ha : rowNumsGo len index numbers cnt (cell :: rest) =
            rowNumsGo len (index + 1) (numbers ++ [cnt]) 0 rest := by
          simp [rowNumsGo, hf, hc]
        rw [ha, ih len (index + 1) (numbers ++ [cnt]) 0 (by omega)]
        have hb : runsNF cnt ((cell :: rest).map (fun cell => cell.filled)) =
            cnt :: runsNF 0 (rest.map (fun cell => cell.filled)) := by
          simp [runsNF, hf, hc]
        rw [hb, List.append_assoc]
        rfl
      · have hc0 : cnt = 0 := by omega
        subst hc0
        have ha : rowNumsGo len index numbers 0 (cell :: rest) =
            rowNumsGo len (index + 1) numbers 0 rest := by
          simp [rowNumsGo, hf]
        rw [ha, ih len (index + 1) numbers 0 (by omega)]
        have hb : runsNF 0 ((cell :: rest).map (fun cell => cell.filled)) =
            runsNF 0 (rest.map (fun cell => cell.filled)) := by
          simp [runsNF, hf]
        rw [hb]

theorem rowNums_eq (row : List NonogramCell) :
    rowNums row =
      if runsGo 0 (row.map (fun cell => cell.filled)) = [] then [0]
      else runsGo 0 (row.map (fun cell => cell.filled)) := by
  have h1 : rowNumsGo row.length 0 [] 0 row =
      runsNF 0 (row.map (fun cell => cell.filled)) := by
    rw [rowNumsGo_eq row row.length 0 [] 0 (by omega)]
    simp
  have h2 : runsNF 0 (row.map (fun cell => cell.filled)) =
      runsGo 0 (row.map (fun cell => cell.filled)) :=
    runsNF_eq_runsGo _ 0 (fun _ => rfl)
  rw [rowNums, h1, h2]
  cases h : runsGo 0 (row.map (fun cell => cell.filled)) with
  | nil => simp
  | cons x xs => simp

/-! ### Per-line clue properties -/

theorem count_true_map_filled (row : List NonogramCell) :
    (row.map (fun cell => cell.filled)).count true =
      row.countP (fun cell => cell.filled) := by
  rw [List.count, List.countP_map]
  congr 1
  funext cell
  simp [Function.comp]

theorem rowNums_ne_nil (row : List NonogramCell) : rowNums row ≠ [] := by
  rw [rowNums_eq]
  cases h : runsGo 0 (row.map (fun cell => cell.filled)) with
  | nil => simp
  | cons x xs => simp [h]

theorem rowNums_sum (row : List NonogramCell) :
    (rowNums row).sum = row.countP (fun cell => cell.filled) := by
  rw [rowNums_eq, ← count_true_map_filled]
  cases h : runsGo 0 (row.map (fun cell => cell.filled)) with
  | nil =>
    have := (runsGo_eq_nil_iff (row.map (fun cell => cell.filled))).mp h
    simp [this]
  | cons x xs =>
    have hs := runsGo_sum (row.map (fun cell => cell.filled)) 0
    rw [h] at hs
    simp only [List.sum_cons, Nat.zero_add] at hs
    simp only [if_neg (by simp : x :: xs ≠ []), List.sum_cons]
    omega

theorem rowNums_all_unfilled (row : List NonogramCell)
    (h : ∀ cell ∈ row, cell.filled = false) : rowNums row = [0] := by
  rw [rowNums_eq]
  have hcount : (row.map (fun cell => cell.filled)).count true = 0 := by
    rw [count_true_map_filled]
    rw [List.countP_eq_zero]
    intro cell hc
    simp [h cell hc]
  rw [(runsGo_eq_nil_iff _).mpr hcount]
  simp

theorem rowNums_pos (row : List NonogramCell)
    (h : ∃ cell ∈ row, cell.filled = true) : ∀ x ∈ rowNums row, 0 < x := by
  intro x hx
  rw [rowNums_eq] at hx
  have hcount : 0 < row.countP (fun cell => cell.filled) := by
    rw [List.countP_pos_iff]
    obtain ⟨cell, hc, hf⟩ := h
    exact ⟨cell, hc, by simp [hf]⟩
  have hne : runsGo 0 (row.map (fun cell => cell.filled)) ≠ [] := by
    intro hnil
    have := (runsGo_eq_nil_iff _).mp hnil
    rw [count_true_map_filled] at this
    omega
  rw [if_neg hne] at hx
  exact runsGo_pos _ 0 x hx

theorem rowNums_fit (row : List NonogramCell) :
    (rowNums row).sum + ((rowNums row).length - 1) ≤ row.length := by
  rw [rowNums_eq]
  cases h : runsGo 0 (row.map (fun cell => cell.filled)) with
  | nil => simp
  | cons x xs =>
    have hfit := runsGo_fit (row.map (fun cell => cell.filled)) 0
    rw [h] at hfit
    simp only [if_neg (by simp : x :: xs ≠ [])]
    simp only [List.length_map] at hfit
    simp only [List.sum_cons, List.length_cons] at hfit ⊢
    omega

theorem rowNums_maximalRuns (row : List NonogramCell) :
    rowNums row =
      if maximalRuns (row.map (fun cell => cell.filled)) = [] then [0]
      else maximalRuns (row.map (fun cell => cell.filled)) := by
  rw [rowNums_eq]
  have h := runsGo_eq_maximalRuns (row.map (fun cell => cell.filled)) 0
  rw [if_pos rfl] at h
  rw [h]

/-! ### The column scan as the row scan along a column -/

theorem columnOf_cons (row : List NonogramCell) (rest : List (List NonogramCell))
    (c : Nat) (cell : NonogramCell) (h : row.get? c = some cell) :
    columnOf (row :: rest) c = cell :: columnOf rest c := by
  simp only [List.get?_eq_getElem?] at h
  simp [columnOf, List.filterMap_cons, h]

theorem columnOf_length (c : Nat) :
    ∀ gs : List (List NonogramCell), (∀ row ∈ gs, c < row.length) →
      (columnOf gs c).length = gs.length := by
  intro gs
  induction gs with
  | nil => intro _; simp [columnOf]
  | cons row rest ih =>
    intro h
    obtain ⟨cell, hcell⟩ : ∃ cell, row.get? c = some cell :=
      ⟨_, List.get?_eq_get (h row (List.mem_cons_self row rest))⟩
    rw [columnOf_cons row rest c cell hcell]
    simp only [List.length_cons]
    rw [ih (fun r hr => h r (List.mem_cons_of_mem row hr))]

theorem colNumsGo_eq (c : Nat) :
    ∀ (gs : List (List NonogramCell)) (len index : Nat) (numbers : List Nat) (cnt : Nat),
      (∀ row ∈ gs, c < row.length) →
      colNumsGo len c index numbers cnt gs =
        some (rowNumsGo len index numbers cnt (columnOf gs c)) := by
  intro gs
  induction gs with
  | nil =>
    intro len index numbers cnt _
    simp [colNumsGo, columnOf, rowNumsGo]
  | cons row rest ih =>
    intro len index numbers cnt h
    obtain ⟨cell, hcell⟩ : ∃ cell, row.get? c = some cell :=
      ⟨_, List.get?_eq_get (h row (List.mem_cons_self row rest))⟩
    have hrest : ∀ r ∈ rest, c < r.length :=
      fun r hr => h r (List.mem_cons_of_mem row hr)
    rw [columnOf_cons row rest c cell hcell]
    simp only [colNumsGo, hcell, rowNumsGo]
    by_cases hf : cell.filled
    · by_cases hidx : index = len - 1
      · simp only [hf, if_true, if_pos hidx]
        exact ih len (index + 1) (numbers ++ [cnt + 1]) (cnt + 1) hrest
      · simp only [hf, if_true, if_neg hidx]
        exact ih len (index + 1) numbers (cnt + 1) hrest
    · by_cases hc : cnt > 0
      · simp only [hf, if_false, if_pos hc]
        exact ih len (index + 1) (numbers ++ [cnt]) 0 hrest
      · simp only [hf, if_false, if_neg hc]
        exact ih len (index + 1) numbers cnt hrest

theorem colNumsAt_eq (grid : List (List NonogramCell)) (c : Nat)
    (h : ∀ row ∈ grid, c < row.length) :
    colNumsAt grid c = some (rowNums (columnOf grid c)) := by
  rw [colNumsAt, colNumsGo_eq c grid grid.length 0 [] 0 h]
  rw [rowNums, columnOf_length c grid h]
  simp

theorem calcCols_eq (grid : List (List NonogramCell)) :
    ∀ cs : List Nat, (∀ c ∈ cs, ∀ row ∈ grid, c < row.length) →
      calcCols grid cs = some (cs.map (fun c => rowNums (columnOf grid c))) := by
  intro cs
  induction cs with
  | nil => intro _; simp [calcCols]
  | cons c cs ih =>
    intro h
    rw [calcCols, colNumsAt_eq grid c (h c (List.mem_cons_self c cs)),
      ih (fun d hd => h d (List.mem_cons_of_mem c hd))]
    simp

/-- Master characterization: on a non-empty rectangular grid the clue
deriver succeeds, the row clues are `rowNums` mapped over the rows, and the
column clues are `rowNums` mapped over the columns of the transpose. -/
theorem calculateNumbers_eq (grid : List (List NonogramCell))
    (hne : grid ≠ []) (hrect : rectangular grid) :
    calculateNumbers grid =
      some (grid.map rowNums, (transposeGrid grid).map rowNums) := by
  obtain ⟨row0, rest, rfl⟩ : ∃ row0 rest, grid = row0 :: rest := by
    cases grid with
    | nil => exact absurd rfl hne
    | cons r rs => exact ⟨r, rs, rfl⟩
  have hwidth : ∀ row ∈ row0 :: rest, row.length = row0.length := by
    intro row hrow
    have := hrect row hrow
    simpa using this
  have hbound : ∀ c ∈ List.range row0.length, ∀ row ∈ row0 :: rest, c < row.length := by
    intro c hc row hrow
    rw [hwidth row hrow]
    exact List.mem_range.mp hc
  rw [calculateNumbers]
  simp only [List.head?_cons]
  rw [calcCols_eq (row0 :: rest) (List.range row0.length) hbound]
  rw [transposeGrid]
  simp only [List.head?_cons, Option.getD_some, List.map_map]
  rfl

/-! ### Pairing helpers -/

theorem forall₂_map_left {α β : Type} (f : α → β) (P : β → α → Prop) :
    ∀ l : List α, (∀ x ∈ l, P (f x) x) → List.Forall₂ P (l.map f) l := by
  intro l
  induction l with
  | nil => intro _; simp
  | cons x xs ih =>
    intro h
    exact List.Forall₂.cons (h x (List.mem_cons_self x xs))
      (ih (fun y hy => h y (List.mem_cons_of_mem x hy)))

theorem forall₂_map_map {α β γ : Type} (f : α → β) (g : α → γ) (P : β → γ → Prop) :
    ∀ l : List α, (∀ x ∈ l, P (f x) (g x)) → List.Forall₂ P (l.map f) (l.map g) := by
  intro l
  induction l with
  | nil => intro _; simp
  | cons x xs ih =>
    intro h
    exact List.Forall₂.cons (h x (List.mem_cons_self x xs))
      (ih (fun y hy => h y (List.mem_cons_of_mem x hy)))

/-! ### The derivation reads only the filled flags -/

theorem map_filled_eq_forall₂ :
    ∀ g1 g2 : List (List NonogramCell),
      g1.map (fun row => row.map (fun cell => cell.filled)) =
        g2.map (fun row => row.map (fun cell => cell.filled)) →
      List.Forall₂
        (fun r1 r2 : List NonogramCell =>
          r1.map (fun cell => cell.filled) = r2.map (fun cell => cell.filled)) g1 g2 := by
  intro g1
  induction g1 with
  | nil =>
    intro g2 h
    cases g2 with
    | nil => exact List.Forall₂.nil
    | cons r rs => simp at h
  | cons r1 rest1 ih =>
    intro g2 h
    cases g2 with
    | nil => simp at h
    | cons r2 rest2 =>
      simp only [List.map_cons, List.cons.injEq] at h
      exact List.Forall₂.cons h.1 (ih rest2 h.2)

theorem rowNums_congr (row1 row2 : List NonogramCell)
    (h : row1.map (fun cell => cell.filled) = row2.map (fun cell => cell.filled)) :
    rowNums row1 = rowNums row2 := by
  rw [rowNums_eq, rowNums_eq, h]

theorem map_rowNums_congr :
    ∀ g1 g2 : List (List NonogramCell),
      List.Forall₂
        (fun r1 r2 : List NonogramCell =>
          r1.map (fun cell => cell.filled) = r2.map (fun cell => cell.filled)) g1 g2 →
      g1.map rowNums = g2.map rowNums := by
  intro g1 g2 h
  induction h with
  | nil => rfl
  | cons hR _ ih =>
    simp only [List.map_cons, ih, List.cons.injEq, and_true]
    exact rowNums_congr _ _ hR

theorem colNumsGo_congr (c : Nat) :
    ∀ (gs1 gs2 : List (List NonogramCell)),
      List.Forall₂
        (fun r1 r2 : List NonogramCell =>
          r1.map (fun cell => cell.filled) = r2.map (fun cell => cell.filled)) gs1 gs2 →
      ∀ (len index : Nat) (numbers : List Nat) (cnt : Nat),
        colNumsGo len c index numbers cnt gs1 = colNumsGo len c index numbers cnt gs2 := by
  intro gs1 gs2 h
  induction h with
  | nil => intro len index numbers cnt; rfl
  | cons hR hrest ih =>
    intro len index numbers cnt
    rename_i r1 r2 rest1 rest2
    have hget : (r1.get? c).map (fun cell => cell.filled) =
        (r2.get? c).map (fun cell => cell.filled) := by
      rw [← List.get?_map, ← List.get?_map, hR]
    cases h1 : r1.get? c with
    | none =>
      cases h2 : r2.get? c with
      | none => simp only [colNumsGo, h1, h2]
      | some cell2 => rw [h1, h2] at hget; simp at hget
    | some cell1 =>
      cases h2 : r2.get? c with
      | none => rw [h1, h2] at hget; simp at hget
      | some cell2 =>
        rw [h1, h2] at hget
        simp only [Option.map_some'] at hget
        have hfil : cell1.filled = cell2.filled := by
          exact Option.some.inj hget
        simp only [colNumsGo, h1, h2, ← hfil]
        by_cases hf : cell1.filled
        · by_cases hidx : index = len - 1
          · simp only [hf, if_true, if_pos hidx]
            exact ih len (index + 1) (numbers ++ [cnt + 1]) (cnt + 1)
          · simp only [hf, if_true, if_neg hidx]
            exact ih len (index + 1) numbers (cnt + 1)
        · by_cases hc : cnt > 0
          · simp only [hf, if_false, if_pos hc]
            exact ih len (index + 1) (numbers ++ [cnt]) 0
          · simp only [hf, if_false, if_neg hc]
            exact ih len (index + 1) numbers cnt

theorem colNumsAt_congr (g1 g2 : List (List NonogramCell))
    (h : List.Forall₂
      (fun r1 r2 : List NonogramCell =>
        r1.map (fun cell => cell.filled) = r2.map (fun cell => cell.filled)) g1 g2)
    (c : Nat) : colNumsAt g1 c = colNumsAt g2 c := by
  rw [colNumsAt, colNumsAt, h.length_eq, colNumsGo_congr c g1 g2 h]

theorem calcCols_congr (g1 g2 : List (List NonogramCell))
    (h : List.Forall₂
      (fun r1 r2 : List NonogramCell =>
        r1.map (fun cell => cell.filled) = r2.map (fun cell => cell.filled)) g1 g2) :
    ∀ cs : List Nat, calcCols g1 cs = calcCols g2 cs := by
  intro cs
  induction cs with
  | nil => rfl
  | cons c cs ih => rw [calcCols, calcCols, colNumsAt_congr g1 g2 h c, ih]

theorem calculateNumbers_congr (g1 g2 : List (List NonogramCell))
    (h : g1.map (fun row => row.map (fun cell => cell.filled)) =
      g2.map (fun row => row.map (fun cell => cell.filled))) :
    calculateNumbers g1 = calculateNumbers g2 := by
  have hF := map_filled_eq_forall₂ g1 g2 h
  cases hF with
  | nil => rfl
  | cons hR hrest =>
    rename_i r1 r2 rest1 rest2
    have hwidth : r1.length = r2.length := by
      have := congrArg List.length hR
      simpa using this
    rw [calculateNumbers, calculateNumbers]
    simp only [List.head?_cons, hwidth]
    rw [calcCols_congr (r1 :: rest1) (r2 :: rest2) (List.Forall₂.cons hR hrest)]
    rw [map_rowNums_congr (r1 :: rest1) (r2 :: rest2) (List.Forall₂.cons hR hrest)]

/-! ### Quantizer access -/

theorem quantizeGrid_get (data : Nat → Nat) (columns rows y x : Nat)
    (hy : y < rows) (hx : x < columns) :
    ((quantizeGrid data columns rows).get? y).bind (fun row => row.get? x) =
      some (sampleCell data ((y * columns + x) * 4)) := by
  rw [quantizeGrid, List.get?_map, List.get?_range hy]
  simp only [Option.map_some', Option.some_bind]
  rw [List.get?_map, List.get?_range hx]
  rfl

/-! ### Claims -/

/-- C1: the clue sequence the deriver produces for a row is exactly the
ordered list of lengths of the maximal runs of consecutive filled cells
scanned left to right (with the all-unfilled `[0]` convention); in
particular an all-filled row of length 4 yields exactly `[4]`: the trailing
run is flushed at the final cell. -/
theorem rowClues_are_maximalRunLengths :
    (∀ row : List NonogramCell,
      rowNums row =
        if maximalRuns (row.map (fun cell => cell.filled)) = [] then [0]
        else maximalRuns (row.map (fun cell => cell.filled))) ∧
    rowNums (List.replicate 4 { filled := true, color := "black" }) = [4] :=
  ⟨rowNums_maximalRuns, by decide⟩

/-- C2: for a non-empty rectangular grid, each row clue sequence sums to
the number of filled cells of its row, and each column clue sequence sums
to the number of filled cells of its column (the sequence `[0]`
contributing 0). -/
theorem clueSums_match_filledCounts (grid : List (List NonogramCell))
    (rns cns : List (List Nat)) (hne : grid ≠ []) (hrect : rectangular grid)
    (h : calculateNumbers grid = some (rns, cns)) :
    List.Forall₂ (fun ns row => ns.sum = row.countP (fun cell => cell.filled)) rns grid ∧
    List.Forall₂ (fun ns col => ns.sum = col.countP (fun cell => cell.filled)) cns
      (transposeGrid grid) := by
  have hm := calculateNumbers_eq grid hne hrect
  rw [h] at hm
  have hp := Option.some.inj hm
  have h1 : rns = grid.map rowNums := congrArg Prod.fst hp
  have h2 : cns = (transposeGrid grid).map rowNums := congrArg Prod.snd hp
  subst h1
  subst h2
  exact ⟨forall₂_map_left rowNums _ grid (fun row _ => rowNums_sum row),
    forall₂_map_left rowNums _ (transposeGrid grid) (fun col _ => rowNums_sum col)⟩

/-- C3: for a non-empty rectangular grid, every clue sequence (row or
column) is non-empty; an all-unfilled line yields exactly `[0]`, and a line
with at least one filled cell has all its clue entries positive. -/
theorem clueSequences_nonempty (grid : List (List NonogramCell))
    (rns cns : List (List Nat)) (hne : grid ≠ []) (hrect : rectangular grid)
    (h : calculateNumbers grid = some (rns, cns)) :
    List.Forall₂ (fun ns (line : List NonogramCell) =>
      ns ≠ [] ∧ ((∀ cell ∈ line, cell.filled = false) → ns = [0]) ∧
        ((∃ cell ∈ line, cell.filled = true) → ∀ n ∈ ns, 0 < n)) rns grid ∧
    List.Forall₂ (fun ns (line : List NonogramCell) =>
      ns ≠ [] ∧ ((∀ cell ∈ line, cell.filled = false) → ns = [0]) ∧
        ((∃ cell ∈ line, cell.filled = true) → ∀ n ∈ ns, 0 < n)) cns
      (transposeGrid grid) := by
  have hm := calculateNumbers_eq grid hne hrect
  rw [h] at hm
  have hp := Option.some.inj hm
  have h1 : rns = grid.map rowNums := congrArg Prod.fst hp
  have h2 : cns = (transposeGrid grid).map rowNums := congrArg Prod.snd hp
  subst h1
  subst h2
  refine ⟨forall₂_map_left rowNums _ grid (fun line _ => ?_),
    forall₂_map_left rowNums _ (transposeGrid grid) (fun line _ => ?_)⟩
  · exact ⟨rowNums_ne_nil line, rowNums_all_unfilled line,
      fun hex n hn => rowNums_pos line hex n hn⟩
  · exact ⟨rowNums_ne_nil line, rowNums_all_unfilled line,
      fun hex n hn => rowNums_pos line hex n hn⟩

/-- C7: on a non-empty rectangular grid the clue deriver succeeds, its row
clues are the per-row scan mapped over the rows, and its column clues are
that same scan mapped over the transposed grid: the column algorithm is the
row algorithm along the other axis. -/
theorem colClues_eq_rowClues_of_transpose (grid : List (List NonogramCell))
    (hne : grid ≠ []) (hrect : rectangular grid) :
    calculateNumbers grid =
      some (grid.map rowNums, (transposeGrid grid).map rowNums) :=
  calculateNumbers_eq grid hne hrect

/-- C8: clue derivation depends only on the `filled` field: two grids that
agree cell-by-cell on `filled` (and hence have the same dimensions) but may
differ arbitrarily in the color values get identical row and column
clues. -/
theorem clues_ignore_colors (g1 g2 : List (List NonogramCell))
    (_hne : g1 ≠ []) (_hrect : rectangular g1)
    (hsame : g1.map (fun row => row.map (fun cell => cell.filled)) =
      g2.map (fun row => row.map (fun cell => cell.filled))) :
    calculateNumbers g1 = calculateNumbers g2 :=
  calculateNumbers_congr g1 g2 hsame

/-- C9: on a non-empty rectangular grid every access of the clue deriver is
in bounds — including reading `grid[0]` for the width and `row[colIndex]`
in the column scans — so the derivation is total (never the error value
`none`). -/
theorem clueDeriver_total_on_rectangular (grid : List (List NonogramCell))
    (hne : grid ≠ []) (hrect : rectangular grid) :
    (calculateNumbers grid).isSome = true := by
  rw [calculateNumbers_eq grid hne hrect]
  rfl

/-- C10: for a non-empty rectangular grid, every line (row or column) with
at least one filled cell has clues satisfying
`sum + (number of runs - 1) ≤ line length`: the runs plus the mandatory
one-cell gaps fit in the line. -/
theorem clues_fit_in_line (grid : List (List NonogramCell))
    (rns cns : List (List Nat)) (hne : grid ≠ []) (hrect : rectangular grid)
    (h : calculateNumbers grid = some (rns, cns)) :
    List.Forall₂ (fun ns (line : List NonogramCell) =>
      (∃ cell ∈ line, cell.filled = true) →
        ns.sum + (ns.length - 1) ≤ line.length) rns grid ∧
    List.Forall₂ (fun ns (line : List NonogramCell) =>
      (∃ cell ∈ line, cell.filled = true) →
        ns.sum + (ns.length - 1) ≤ line.length) cns (transposeGrid grid) := by
  have hm := calculateNumbers_eq grid hne hrect
  rw [h] at hm
  have hp := Option.some.inj hm
  have h1 : rns = grid.map rowNums := congrArg Prod.fst hp
  have h2 : cns = (transposeGrid grid).map rowNums := congrArg Prod.snd hp
  subst h1
  subst h2
  exact ⟨forall₂_map_left rowNums _ grid (fun line _ _ => rowNums_fit line),
    forall₂_map_left rowNums _ (transposeGrid grid) (fun line _ _ => rowNums_fit line)⟩

/-- C4: for every pixel buffer and every `columns`, `rows` in `[5, 50]`,
the quantizer returns a grid with exactly `rows` rows of exactly `columns`
cells each, assembled in row-major order (cell `(y, x)` is sampled at
buffer offset `(y * columns + x) * 4`). -/
theorem quantize_dimension_fidelity (data : Nat → Nat) (columns rows : Nat)
    (_h5c : 5 ≤ columns) (_hc50 : columns ≤ 50) (_h5r : 5 ≤ rows) (_hr50 : rows ≤ 50) :
    (quantizeGrid data columns rows).length = rows ∧
    (∀ row ∈ quantizeGrid data columns rows, row.length = columns) ∧
    (∀ y x, y < rows → x < columns →
      ((quantizeGrid data columns rows).get? y).bind (fun row => row.get? x) =
        some (sampleCell data ((y * columns + x) * 4))) := by
  refine ⟨by simp [quantizeGrid], ?_, ?_⟩
  · intro row hrow
    rw [quantizeGrid] at hrow
    obtain ⟨y, _, rfl⟩ := List.mem_map.mp hrow
    simp
  · intro y x hy hx
    exact quantizeGrid_get data columns rows y x hy hx

/-- C5: every sampled cell's brightness is the unweighted average
`(red + green + blue) / 3` of its RGB triple, and the cell is filled
exactly when that brightness is strictly below 128; brightness exactly 128
is not filled. -/
theorem quantize_brightness_threshold (data : Nat → Nat) (columns rows y x : Nat)
    (hy : y < rows) (hx : x < columns) :
    ∃ cell : NonogramCell,
      ((quantizeGrid data columns rows).get? y).bind (fun row => row.get? x) = some cell ∧
      (cell.filled = true ↔ brightnessAt data ((y * columns + x) * 4) < 128) ∧
      (brightnessAt data ((y * columns + x) * 4) = 128 → cell.filled = false) := by
  refine ⟨sampleCell data ((y * columns + x) * 4),
    quantizeGrid_get data columns rows y x hy hx, ?_, ?_⟩
  · simp [sampleCell]
  · intro heq
    simp [sampleCell, heq]

/-- C6 (refuted by this failing run): the aspect-ratio path of
`handleImageUpload` does not clamp: with `columns = 15` and a 1000×1 image
the initial rows value is `round(15 · (1/1000)) = 0`, outside `[5, 50]`
(a 1×1000 image gives 15000, also outside); quantizing with `rows = 0`
then yields the empty grid, on which the clue deriver faults
(`grid[0].length` – here `none`). -/
theorem uploadInitialRows_escapes_range :
    uploadInitialRows 15 1000 1 = 0 ∧
    uploadInitialRows 15 1 1000 = 15000 ∧
    ¬ (5 ≤ uploadInitialRows 15 1000 1 ∧ uploadInitialRows 15 1000 1 ≤ 50) ∧
    quantizeGrid (fun _ => 0) 15 ((uploadInitialRows 15 1000 1).toNat) = [] ∧
    calculateNumbers
      (quantizeGrid (fun _ => 0) 15 ((uploadInitialRows 15 1000 1).toNat)) = none := by
  have h1 : uploadInitialRows 15 1000 1 = 0 := by
    rw [uploadInitialRows]
    norm_num [round_eq]
  have h2 : uploadInitialRows 15 1 1000 = 15000 := by
    rw [uploadInitialRows]
    norm_num [round_eq]
  refine ⟨h1, h2, ?_, ?_, ?_⟩
  · rw [h1]
    decide
  · rw [h1]
    rfl
  · rw [h1]
    rfl

/-! ### Concrete witnesses -/

theorem clueSums_match_filledCounts_witness :
    List.Forall₂
      (fun (ns : List Nat) (row : List NonogramCell) =>
        ns.sum = row.countP (fun cell => cell.filled))
      [[1], [2]]
      [[{ filled := true, color := "" }, { filled := false, color := "" }],
       [{ filled := true, color := "" }, { filled := true, color := "" }]] ∧
    List.Forall₂
      (fun (ns : List Nat) (col : List NonogramCell) =>
        ns.sum = col.countP (fun cell => cell.filled))
      [[2], [1]]
      [[{ filled := true, color := "" }, { filled := true, color := "" }],
       [{ filled := false, color := "" }, { filled := true, color := "" }]] :=
  clueSums_match_filledCounts
    [[{ filled := true, color := "" }, { filled := false, color := "" }],
     [{ filled := true, color := "" }, { filled := true, color := "" }]]
    [[1], [2]] [[2], [1]] (by decide) (by decide) rfl

theorem clueSequences_nonempty_witness :
    List.Forall₂ (fun ns (line : List NonogramCell) =>
      ns ≠ [] ∧ ((∀ cell ∈ line, cell.filled = false) → ns = [0]) ∧
        ((∃ cell ∈ line, cell.filled = true) → ∀ n ∈ ns, 0 < n))
      [[1], [0]]
      [[{ filled := true, color := "" }, { filled := false, color := "" }],
       [{ filled := false, color := "" }, { filled := false, color := "" }]] ∧
    List.Forall₂ (fun ns (line : List NonogramCell) =>
      ns ≠ [] ∧ ((∀ cell ∈ line, cell.filled = false) → ns = [0]) ∧
        ((∃ cell ∈ line, cell.filled = true) → ∀ n ∈ ns, 0 < n))
      [[1], [0]]
      [[{ filled := true, color := "" }, { filled := false, color := "" }],
       [{ filled := false, color := "" }, { filled := false, color := "" }]] :=
  clueSequences_nonempty
    [[{ filled := true, color := "" }, { filled := false, color := "" }],
     [{ filled := false, color := "" }, { filled := false, color := "" }]]
    [[1], [0]] [[1], [0]] (by decide) (by decide) rfl

theorem colClues_eq_rowClues_of_transpose_witness :
    calculateNumbers
        [[{ filled := true, color := "" }, { filled := false, color := "" }],
         [{ filled := true, color := "" }, { filled := true, color := "" }]] =
      some ([[1], [2]], [[2], [1]]) :=
  colClues_eq_rowClues_of_transpose
    [[{ filled := true, color := "" }, { filled := false, color := "" }],
     [{ filled := true, color := "" }, { filled := true, color := "" }]]
    (by decide) (by decide)

theorem clues_ignore_colors_witness :
    calculateNumbers [[{ filled := true, color := "red" }]] =
      calculateNumbers [[{ filled := true, color := "blue" }]] ∧
    ([[{ filled := true, color := "red" }]] : List (List NonogramCell)) ≠
      [[{ filled := true, color := "blue" }]] :=
  ⟨clues_ignore_colors [[{ filled := true, color := "red" }]]
      [[{ filled := true, color := "blue" }]] (by decide) (by decide) rfl,
    by decide⟩

theorem clueDeriver_total_on_rectangular_witness :
    (calculateNumbers [[{ filled := false, color := "" }]]).isSome = true :=
  clueDeriver_total_on_rectangular [[{ filled := false, color := "" }]]
    (by decide) (by decide)

theorem clues_fit_in_line_witness :
    List.Forall₂ (fun ns (line : List NonogramCell) =>
      (∃ cell ∈ line, cell.filled = true) →
        ns.sum + (ns.length - 1) ≤ line.length)
      [[1, 1], [0]]
      [[{ filled := true, color := "" }, { filled := false, color := "" },
        { filled := true, color := "" }],
       [{ filled := false, color := "" }, { filled := false, color := "" },
        { filled := false, color := "" }]] ∧
    List.Forall₂ (fun ns (line : List NonogramCell) =>
      (∃ cell ∈ line, cell.filled = true) →
        ns.sum + (ns.length - 1) ≤ line.length)
      [[1], [0], [1]]
      [[{ filled := true, color := "" }, { filled := false, color := "" }],
       [{ filled := false, color := "" }, { filled := false, color := "" }],
       [{ filled := true, color := "" }, { filled := false, color := "" }]] :=
  clues_fit_in_line
    [[{ filled := true, color := "" }, { filled := false, color := "" },
      { filled := true, color := "" }],
     [{ filled := false, color := "" }, { filled := false, color := "" },
      { filled := false, color := "" }]]
    [[1, 1], [0]] [[1], [0], [1]] (by decide) (by decide) rfl

theorem quantize_dimension_fidelity_witness :
    (quantizeGrid (fun _ => 0) 5 5).length = 5 ∧
    (∀ row ∈ quantizeGrid (fun _ => 0) 5 5, row.length = 5) ∧
    (∀ y x, y < 5 → x < 5 →
      ((quantizeGrid (fun _ => 0) 5 5).get? y).bind (fun row => row.get? x) =
        some (sampleCell (fun _ => 0) ((y * 5 + x) * 4))) :=
  quantize_dimension_fidelity (fun _ => 0) 5 5 (by decide) (by decide)
    (by decide) (by decide)

theorem quantize_brightness_threshold_witness :
    ∃ cell : NonogramCell,
      ((quantizeGrid (fun _ => 128) 5 5).get? 0).bind (fun row => row.get? 0) =
        some cell ∧
      (cell.filled = true ↔ brightnessAt (fun _ => 128) ((0 * 5 + 0) * 4) < 128) ∧
      (brightnessAt (fun _ => 128) ((0 * 5 + 0) * 4) = 128 → cell.filled = false) :=
  quantize_brightness_threshold (fun _ => 128) 5 5 0 0 (by decide) (by decide)
